import Mathlib

/-!
Verification of the random-number-generation tutorial program
(`src/main.cpp`): a driver `main` that seeds the C library generator once
with `srand(int(time(0)))`, prints `REPETITIONS` unranged draws of `rand()`,
then prints `REPETITIONS` draws mapped into `[200, 300]` by `rand_range`,
where `rand_range(low, high) = (rand() % (high - low + 1)) + low`.

The embedding uses mathematical integers with explicit two's-complement
wrap-around (`wrap32`) wherever 32-bit `int` arithmetic can overflow, and
`Int.tmod` for the C++ `%` operator (truncated division).  Division or
modulo by zero is an arithmetic fault, modelled as `Option.none`.
-/

namespace RandTutorial

set_option maxRecDepth 2048

/-- Smallest value of the 32-bit `int` type used throughout `src/main.cpp`
(`-2^31`). -/
def INT_MIN : Int := -2147483648

/-- Largest value of the 32-bit `int` type (`2^31 - 1`). -/
def INT_MAX : Int := 2147483647

/-- `RAND_MAX` as documented in the tutorial text of `src/main.cpp`
("Using GNU C++ ... RAND_MAX is 2,147,483,647"), i.e. `2^31 - 1`. -/
def RAND_MAX : Int := 2147483647

/-- `const int REPETITIONS = 10;` from `src/main.cpp` line 306. -/
def REPETITIONS : Int := 10

/-- Two's-complement wrap-around of a mathematical integer into the 32-bit
`int` range `[-2^31, 2^31 - 1]` (`2147483648 = 2^31`, `4294967296 = 2^32`);
models overflow of C++ `int` arithmetic. -/
def wrap32 (z : Int) : Int := (z + 2147483648) % 4294967296 - 2147483648

/-- The divisor `high - low + 1` as the C++ expression inside `rand_range`
computes it in `int` arithmetic: each binary operation wraps. -/
def rangeSize (low high : Int) : Int := wrap32 (wrap32 (high - low) + 1)

/-- `rand_range` from `src/main.cpp` lines 377-388, parameterized by the
unranged draw `r` that its internal call to `rand()` returns:
`return (rand() % (high - low + 1)) + low;`.
C++ `%` on `int` truncates toward zero (`Int.tmod`); when the divisor
`high - low + 1` evaluates to `0` the modulo is an arithmetic fault
(division by zero), modelled as `none`. -/
def rand_range (r low high : Int) : Option Int :=
  if rangeSize low high = 0 then none
  else some (wrap32 (Int.tmod r (rangeSize low high) + low))

/-- Modelled from the spec: the C library generator behind `rand()`/`srand()`
is not part of this repository's sources, and the spec leaves the exact
algorithm unpinned ("value pinned to whichever reference generator algorithm
is chosen"), requiring only a deterministic generator with draws in
`[0, RAND_MAX]`.  We use a reference linear congruential step on states
below `2^31`; the draw equals the next state, so every draw lies in
`[0, RAND_MAX]`. -/
def randStep (s : Nat) : Int × Nat :=
  let t := (s * 1103515245 + 12345) % 2147483648
  ((t : Int), t)

/-- Modelled from the spec: `srand` stores the seed as the generator state;
the C conversion of the `int` argument to `unsigned int` is reduction
modulo `2^32`. -/
def srandM (seed : Int) : Nat := (seed % 4294967296).toNat

/-- Events recorded by a run of the driver: one per `srand` call and one per
`rand()` call, in order of occurrence. -/
inductive Ev where
  | seedEv : Ev
  | drawEv : Ev
deriving DecidableEq

/-- Process-wide state of the driver: the generator state together with the
trace of seeding and drawing events so far. -/
structure CState where
  gen : Nat
  trace : List Ev
deriving DecidableEq

/-- `srand(seed)` as executed by `main` line 325: reseeds the generator and
records a seeding event. -/
def srandC (seed : Int) (st : CState) : CState :=
  { gen := srandM seed, trace := st.trace ++ [Ev.seedEv] }

/-- `rand()`: one unranged draw, advancing the generator state and recording
a drawing event. -/
def randC (st : CState) : Int × CState :=
  ((randStep st.gen).1, { gen := (randStep st.gen).2, trace := st.trace ++ [Ev.drawEv] })

/-- `rand_range` as called by the driver (lines 377-388): performs exactly
one unranged draw and maps it into `[low, high]`. -/
def rand_rangeC (low high : Int) (st : CState) : Option Int × CState :=
  ((rand_range (randC st).1 low high), (randC st).2)

/-- One line of standard output. `cout << endl` at the start of each header
statement emits a line break on its own, producing a blank line; a header
line reports a count and the two range bounds; a value line is one printed
integer. -/
inductive Line where
  | blank : Line
  | header (cnt lo hi : Int) : Line
  | value (v : Int) : Line
deriving DecidableEq

/-- First loop of `main` (lines 336-343): `n` unranged draws, each printed
as it is produced; returns the drawn values in print order. -/
def loopA : Nat → CState → List Int × CState
  | 0, st => ([], st)
  | n + 1, st =>
    ((randC st).1 :: (loopA n (randC st).2).1, (loopA n (randC st).2).2)

/-- Second loop of `main` (lines 362-369): `n` range-mapped draws over
`[low, high]`, each printed as it is produced. -/
def loopB (low high : Int) : Nat → CState → List (Option Int) × CState
  | 0, st => ([], st)
  | n + 1, st =>
    ((rand_rangeC low high st).1 :: (loopB low high n (rand_rangeC low high st).2).1,
      (loopB low high n (rand_rangeC low high st).2).2)

/-- The driver `main` of `src/main.cpp` lines 317-371, given the value of
`time(0)`: seed once with `srand(int(time(0)))`, draw `REPETITIONS`
unranged values, set `low = 200; high = 300`, draw `REPETITIONS`
range-mapped values.  Returns both batches of values and the final state
(in particular its event trace). -/
def mainPieces (timeVal : Int) : List Int × List (Option Int) × CState :=
  let st0 := srandC timeVal ⟨0, []⟩
  let p1 := loopA REPETITIONS.toNat st0
  let p2 := loopB 200 300 REPETITIONS.toNat p1.2
  (p1.1, p2.1, p2.2)

/-- The trace of seeding and drawing events of a full run of `main`. -/
def mainTrace (timeVal : Int) : List Ev := (mainPieces timeVal).2.2.trace

/-- Sequencing of possibly-faulting draws: `none` as soon as one draw
faulted, otherwise the list of drawn values. -/
def seqOpt : List (Option Int) → Option (List Int)
  | [] => some []
  | none :: _ => none
  | some a :: rest => (seqOpt rest).map (fun l => a :: l)

/-- The lines a full run of `main` writes to standard output, split at each
`endl`: `cout << endl << ...header... << endl` contributes a blank line and
a header line, and each loop iteration contributes one value line.  `none`
if any range-mapped draw faults (the process would die mid-output). -/
def mainLines (timeVal : Int) : Option (List Line) :=
  (seqOpt (mainPieces timeVal).2.1).map (fun ws =>
    [Line.blank, Line.header REPETITIONS 0 RAND_MAX]
      ++ (mainPieces timeVal).1.map Line.value
      ++ [Line.blank, Line.header REPETITIONS 200 300]
      ++ ws.map Line.value)

/-- The sequence of the first `n` unranged draws from generator state `s`. -/
def drawSeq : Nat → Nat → List Int
  | 0, _ => []
  | n + 1, s => (randStep s).1 :: drawSeq n (randStep s).2

/-- The generator state after `i` draws from initial state `s`. -/
def genAfter (s : Nat) : Nat → Nat
  | 0 => s
  | i + 1 => (randStep (genAfter s i)).2

/-- The `i`-th unranged draw (0-based) from initial generator state `s`, as
a pure function of `s` and `i`. -/
def nthDraw (s : Nat) (i : Nat) : Int := (randStep (genAfter s i)).1

/-- The range-mapping algorithm in the spec's own words (§4.3: "take one
unranged draw `r`; compute `size = high - low + 1`; compute
`result = (r mod size) + low`"), read over mathematical integers; used to
compare the source's `rand_range` against the spec. -/
def rand_range_spec (r low high : Int) : Int := r % (high - low + 1) + low

lemma wrap32_id {z : Int} (h1 : -2147483648 ≤ z) (h2 : z ≤ 2147483647) : wrap32 z = z := by
  unfold wrap32; omega

lemma rangeSize_congr (low high : Int) :
    (rangeSize low high - (high - low + 1)) % 4294967296 = 0 := by
  unfold rangeSize wrap32; omega

lemma rangeSize_bounds (low high : Int) :
    -2147483648 ≤ rangeSize low high ∧ rangeSize low high ≤ 2147483647 := by
  unfold rangeSize wrap32; omega

lemma tmod_eq_emod_abs {r : Int} (b : Int) (hr : 0 ≤ r) : Int.tmod r b = r % |b| := by
  rcases le_or_lt 0 b with hb | hb
  · rw [abs_of_nonneg hb, Int.tmod_eq_emod hr hb]
  · have h2 : Int.tmod r (-(-b)) = Int.tmod r (-b) := Int.tmod_neg r (-b)
    rw [neg_neg] at h2
    rw [abs_of_neg hb, h2, Int.tmod_eq_emod hr (by omega)]

lemma tmod_bounds {r b : Int} (hr : 0 ≤ r) (hb : b ≠ 0) :
    0 ≤ Int.tmod r b ∧ (Int.tmod r b < b ∨ Int.tmod r b < -b) := by
  have habs : Int.tmod r b = r % |b| := tmod_eq_emod_abs b hr
  have h0 : (0 : Int) < |b| := abs_pos.mpr hb
  have h1 : 0 ≤ r % |b| := Int.emod_nonneg r (ne_of_gt h0)
  have h2 : r % |b| < |b| := Int.emod_lt_of_pos r h0
  rcases abs_choice b with h | h <;> rw [habs] <;> omega

/-- Core range lemma: for any draw `0 ≤ r ≤ RAND_MAX` and any valid interval
`low ≤ high` other than the full-width `[INT_MIN, INT_MAX]`, the mapped draw
exists and lies in `[low, high]`. -/
lemma rand_range_mem {r low high : Int} (h1 : INT_MIN ≤ low) (h2 : high ≤ INT_MAX)
    (h3 : low ≤ high) (h4 : ¬(low = INT_MIN ∧ high = INT_MAX))
    (h5 : 0 ≤ r) (h6 : r ≤ RAND_MAX) :
    ∃ v, rand_range r low high = some v ∧ low ≤ v ∧ v ≤ high := by
  simp only [INT_MIN, INT_MAX, RAND_MAX] at h1 h2 h4 h6
  have hc := rangeSize_congr low high
  have hbd := rangeSize_bounds low high
  have hne : rangeSize low high ≠ 0 := by omega
  have hmb := tmod_bounds h5 hne
  have hmle : low ≤ Int.tmod r (rangeSize low high) + low ∧
      Int.tmod r (rangeSize low high) + low ≤ high := by omega
  refine ⟨Int.tmod r (rangeSize low high) + low, ?_, hmle.1, hmle.2⟩
  unfold rand_range
  rw [if_neg hne, wrap32_id (by omega) (by omega)]

/-- C1: the claim — for every `low ≤ high` the call returns a value `v` with
`low ≤ v ≤ high` — is the function's own documented postcondition
(`src/main.cpp` lines 379-384), but the code violates it at `low = INT_MIN`,
`high = INT_MAX`: the `int` computation of `high - low + 1` wraps to `0` and
the modulo faults (division by zero), producing no value for any draw. -/
theorem rand_range_full_width_faults :
    INT_MIN ≤ INT_MAX ∧ rangeSize INT_MIN INT_MAX = 0 ∧
      ∀ r : Int, rand_range r INT_MIN INT_MAX = none := by
  refine ⟨by decide, by decide, fun r => ?_⟩
  unfold rand_range
  rw [if_pos (by decide)]

/-- C2 (amended): for an invalid range `high < low` the call faults
(producing no value) exactly when `high = low - 1`; when `high < low - 1`
the divisor is non-zero and the call returns normally with the value of the
same modulo formula — in particular it never silently swaps or clamps `low`
and `high` into a valid range. -/
theorem rand_range_invalid_range_amended (r low high : Int)
    (h1 : INT_MIN ≤ high) (h2 : low ≤ INT_MAX) (hlt : high < low)
    (h5 : 0 ≤ r) (h6 : r ≤ RAND_MAX) :
    (rand_range r low high = none ↔ high = low - 1) ∧
    (high < low - 1 →
      rand_range r low high = some (wrap32 (Int.tmod r (rangeSize low high) + low))) := by
  simp only [INT_MIN, INT_MAX, RAND_MAX] at h1 h2 h6
  have hc := rangeSize_congr low high
  have hbd := rangeSize_bounds low high
  constructor
  · constructor
    · intro hnone
      have h0 : rangeSize low high = 0 := by
        by_contra hne
        simp [rand_range, hne] at hnone
      omega
    · intro heq
      have h0 : rangeSize low high = 0 := by omega
      simp [rand_range, h0]
  · intro hlt2
    have hne : rangeSize low high ≠ 0 := by omega
    simp [rand_range, hne]

/-- C2 counterexample: at `low = 30`, `high = 20` (an invalid range) the call
does not fail: the draw `r = 5` yields the value `35` — which moreover lies
outside `[20, 30]`, so the bounds were not silently swapped or clamped. -/
theorem rand_range_invalid_range_counterexample :
    (20 : Int) < 30 ∧ rand_range 5 30 20 = some 35 := by decide

/-- Witness for the amended C2 at `r = 5`, `low = 30`, `high = 20`. -/
theorem rand_range_invalid_range_witness :
    (rand_range 5 30 20 = none ↔ (20 : Int) = 30 - 1) ∧
    ((20 : Int) < 30 - 1 →
      rand_range 5 30 20 = some (wrap32 (Int.tmod 5 (rangeSize 30 20) + 30))) :=
  rand_range_invalid_range_amended 5 30 20 (by decide) (by decide) (by decide)
    (by decide) (by decide)

/-- C3 counterexample: the claim as stated fails at the valid interval
`low = INT_MIN`, `high = 0` (where `low ≤ high`): the `int` computation of
`size = high - low + 1` overflows (the exact value `2^31 + 1` wraps to
`-2147483647`), and on the draw `r = RAND_MAX` the code returns `INT_MIN`
while the spec §4.3 algorithm read over mathematical integers yields `-1`,
so the code does not compute the specified algorithm there. -/
theorem rand_range_spec_alg_counterexample :
    INT_MIN ≤ (0 : Int) ∧
    rangeSize INT_MIN 0 = -2147483647 ∧
    rand_range RAND_MAX INT_MIN 0 = some INT_MIN ∧
    rand_range_spec RAND_MAX INT_MIN 0 = -1 ∧
    rand_range RAND_MAX INT_MIN 0 ≠ some (rand_range_spec RAND_MAX INT_MIN 0) := by
  decide

/-- C3 (amended): `rand_range` computes exactly the algorithm of spec §4.3 —
one unranged draw `r`, `size = high - low + 1`, result `(r mod size) + low`
— whenever that algorithm's arithmetic stays inside 32-bit `int`
(`high - low + 1 ≤ INT_MAX`, the condition the counterexample above forces);
and, as called by the driver, it advances the generator state by exactly one
draw, appends exactly one draw event to the trace, and has no other
effect. -/
theorem rand_range_refines_spec_alg (r low high : Int) (st : CState)
    (h1 : INT_MIN ≤ low) (h2 : high ≤ INT_MAX) (h3 : low ≤ high)
    (h7 : high - low + 1 ≤ INT_MAX) (h5 : 0 ≤ r) (h6 : r ≤ RAND_MAX) :
    rand_range r low high = some (rand_range_spec r low high) ∧
    (rand_rangeC low high st).1 = rand_range (randC st).1 low high ∧
    (rand_rangeC low high st).2.gen = (randC st).2.gen ∧
    (rand_rangeC low high st).2.trace = st.trace ++ [Ev.drawEv] := by
  refine ⟨?_, rfl, rfl, rfl⟩
  simp only [INT_MIN, INT_MAX, RAND_MAX] at h1 h2 h7 h6
  have hc := rangeSize_congr low high
  have hbd := rangeSize_bounds low high
  have hs : rangeSize low high = high - low + 1 := by omega
  have hpos : 0 < high - low + 1 := by omega
  have hm1 : 0 ≤ r % (high - low + 1) := Int.emod_nonneg r (by omega)
  have hm2 : r % (high - low + 1) < high - low + 1 := Int.emod_lt_of_pos r hpos
  unfold rand_range rand_range_spec
  rw [hs, if_neg (by omega), Int.tmod_eq_emod h5 (by omega),
    wrap32_id (by omega) (by omega)]

/-- Witness for C3 at `r = 5`, `low = 2`, `high = 4`, started from the
initial process state. -/
theorem rand_range_refines_spec_alg_witness :
    rand_range 5 2 4 = some (rand_range_spec 5 2 4) ∧
    (rand_rangeC 2 4 ⟨0, []⟩).1 = rand_range (randC ⟨0, []⟩).1 2 4 ∧
    (rand_rangeC 2 4 ⟨0, []⟩).2.gen = (randC ⟨0, []⟩).2.gen ∧
    (rand_rangeC 2 4 ⟨0, []⟩).2.trace = ([] : List Ev) ++ [Ev.drawEv] :=
  rand_range_refines_spec_alg 5 2 4 ⟨0, []⟩ (by decide) (by decide) (by decide)
    (by decide) (by decide) (by decide)

/-- C5: for a degenerate valid range `low = high`, the call deterministically
returns exactly `low`, for every value the unranged draw can produce. -/
theorem rand_range_singleton (r low : Int) (h1 : INT_MIN ≤ low) (h2 : low ≤ INT_MAX)
    (h5 : 0 ≤ r) (h6 : r ≤ RAND_MAX) :
    rand_range r low low = some low := by
  have hs : rangeSize low low = 1 := by unfold rangeSize wrap32; omega
  simp only [INT_MIN, INT_MAX] at h1 h2
  unfold rand_range
  rw [hs, if_neg one_ne_zero]
  simp only [Int.tmod_one, zero_add]
  rw [wrap32_id (by omega) (by omega)]

/-- Witness for C5 at `r = 7`, `low = high = 5`. -/
theorem rand_range_singleton_witness : rand_range 7 5 5 = some 5 :=
  rand_range_singleton 7 5 (by decide) (by decide) (by decide) (by decide)

/-- C6: with `low = 20, high = 30`, every draw maps to a value in
`{20, ..., 30}`, and the mapping is surjective onto `[20, 30]` as the draw
ranges over `[0, RAND_MAX]`: no value of the range is silently
unreachable. -/
theorem rand_range_20_30_cover (r v : Int) (h5 : 0 ≤ r) (h6 : r ≤ RAND_MAX)
    (hv1 : 20 ≤ v) (hv2 : v ≤ 30) :
    (∃ w, rand_range r 20 30 = some w ∧ 20 ≤ w ∧ w ≤ 30) ∧
    (∃ r2, 0 ≤ r2 ∧ r2 ≤ RAND_MAX ∧ rand_range r2 20 30 = some v) := by
  constructor
  · exact rand_range_mem (by decide) (by decide) (by decide) (by decide) h5 h6
  · refine ⟨v - 20, by omega, by simp only [RAND_MAX]; omega, ?_⟩
    have hs : rangeSize 20 30 = 11 := by decide
    unfold rand_range
    rw [hs, if_neg (by decide), Int.tmod_eq_of_lt (by omega) (by omega),
      wrap32_id (by omega) (by omega)]
    congr 1
    omega

/-- Witness for C6 at `r = 0`, `v = 25`. -/
theorem rand_range_20_30_cover_witness :
    (∃ w, rand_range 0 20 30 = some w ∧ 20 ≤ w ∧ w ≤ 30) ∧
    (∃ r2, 0 ≤ r2 ∧ r2 ≤ RAND_MAX ∧ rand_range r2 20 30 = some 25) :=
  rand_range_20_30_cover 0 25 (by decide) (by decide) (by decide) (by decide)

/-- C9: there is a valid interval (`low = INT_MIN`, `high = INT_MAX`, so
`low ≤ high`) where the `int` computation of `size = high - low + 1`
overflows: the exact value `2^32` wraps to `0`, the modulo faults (division
by zero) and the call produces no value, for every draw. -/
theorem rand_range_overflow_exists :
    ∃ low high : Int, INT_MIN ≤ low ∧ high ≤ INT_MAX ∧ low ≤ high ∧
      high - low + 1 = 4294967296 ∧ rangeSize low high = 0 ∧
      ∀ r : Int, rand_range r low high = none := by
  refine ⟨INT_MIN, INT_MAX, by decide, by decide, by decide, by decide, by decide,
    fun r => ?_⟩
  unfold rand_range
  rw [if_pos (by decide)]

/-- C10: for `high < low - 1` the modulo has a non-zero divisor and the call
returns normally — `(r tmod size) + low` in `int` arithmetic, where for a
non-negative draw the truncated remainder equals `r mod |size|`; absent
overflow the computed size in this region is indeed strictly negative; and
the arithmetic fault is reachable exactly when the computed size is `0`,
which within 32-bit bounds happens only at `high = low - 1` or at the
wrap-around pair `low = INT_MIN, high = INT_MAX`. -/
theorem rand_range_negative_size_total (r low high : Int)
    (hl1 : INT_MIN ≤ low) (hl2 : low ≤ INT_MAX) (hh1 : INT_MIN ≤ high)
    (hh2 : high ≤ INT_MAX) (h5 : 0 ≤ r) (h6 : r ≤ RAND_MAX) (hlt : high < low - 1) :
    rangeSize low high ≠ 0 ∧
    rand_range r low high = some (wrap32 (Int.tmod r (rangeSize low high) + low)) ∧
    Int.tmod r (rangeSize low high) = r % |rangeSize low high| ∧
    (INT_MIN ≤ high - low + 1 →
      rangeSize low high = high - low + 1 ∧ rangeSize low high < 0) ∧
    (∀ low2 high2 r2 : Int, rand_range r2 low2 high2 = none ↔ rangeSize low2 high2 = 0) ∧
    (∀ low2 high2 : Int, INT_MIN ≤ low2 → low2 ≤ INT_MAX → INT_MIN ≤ high2 →
      high2 ≤ INT_MAX →
      (rangeSize low2 high2 = 0 ↔
        (high2 = low2 - 1 ∨ (low2 = INT_MIN ∧ high2 = INT_MAX)))) := by
  simp only [INT_MIN, INT_MAX, RAND_MAX] at hl1 hl2 hh1 hh2 h6 ⊢
  have hc := rangeSize_congr low high
  have hbd := rangeSize_bounds low high
  have hne : rangeSize low high ≠ 0 := by omega
  refine ⟨hne, by simp [rand_range, hne], tmod_eq_emod_abs _ h5, by omega, ?_, ?_⟩
  · intro low2 high2 r2
    by_cases h0 : rangeSize low2 high2 = 0
    · simp [rand_range, h0]
    · simp [rand_range, h0]
  · intro low2 high2 hb1 hb2 hb3 hb4
    have hc2 := rangeSize_congr low2 high2
    have hbd2 := rangeSize_bounds low2 high2
    omega

/-- Witness for C10 at `r = 5`, `low = 30`, `high = 20`. -/
theorem rand_range_negative_size_total_witness :
    rangeSize 30 20 ≠ 0 ∧
    rand_range 5 30 20 = some (wrap32 (Int.tmod 5 (rangeSize 30 20) + 30)) ∧
    Int.tmod 5 (rangeSize 30 20) = 5 % |rangeSize 30 20| ∧
    (INT_MIN ≤ (20 : Int) - 30 + 1 →
      rangeSize 30 20 = 20 - 30 + 1 ∧ rangeSize 30 20 < 0) ∧
    (∀ low2 high2 r2 : Int, rand_range r2 low2 high2 = none ↔ rangeSize low2 high2 = 0) ∧
    (∀ low2 high2 : Int, INT_MIN ≤ low2 → low2 ≤ INT_MAX → INT_MIN ≤ high2 →
      high2 ≤ INT_MAX →
      (rangeSize low2 high2 = 0 ↔
        (high2 = low2 - 1 ∨ (low2 = INT_MIN ∧ high2 = INT_MAX)))) :=
  rand_range_negative_size_total 5 30 20 (by decide) (by decide) (by decide)
    (by decide) (by decide) (by decide) (by decide)

lemma genAfter_succ (s : Nat) (i : Nat) :
    genAfter s (i + 1) = genAfter (randStep s).2 i := by
  induction i with
  | zero => simp only [genAfter]
  | succ i ih =>
    show (randStep (genAfter s (i + 1))).2 = (randStep (genAfter (randStep s).2 i)).2
    rw [ih]

lemma drawSeq_eq_map (n : Nat) (s : Nat) :
    drawSeq n s = (List.range n).map (nthDraw s) := by
  induction n generalizing s with
  | zero => rfl
  | succ n ih =>
    rw [List.range_succ_eq_map, List.map_cons, List.map_map]
    show (randStep s).1 :: drawSeq n (randStep s).2 = _
    congr 1
    rw [ih]
    apply List.map_congr_left
    intro i _
    show nthDraw (randStep s).2 i = nthDraw s (i + 1)
    unfold nthDraw
    rw [genAfter_succ]

lemma drawSeq_length (n : Nat) (s : Nat) : (drawSeq n s).length = n := by
  induction n generalizing s with
  | zero => rfl
  | succ n ih => simp [drawSeq, ih]

lemma randStep_range (s : Nat) : 0 ≤ (randStep s).1 ∧ (randStep s).1 ≤ RAND_MAX := by
  simp only [randStep, RAND_MAX]
  omega

lemma drawSeq_range (n : Nat) (s : Nat) :
    ∀ r ∈ drawSeq n s, 0 ≤ r ∧ r ≤ RAND_MAX := by
  induction n generalizing s with
  | zero => intro r hr; cases hr
  | succ n ih =>
    intro r hr
    simp only [drawSeq, List.mem_cons] at hr
    rcases hr with h | h
    · rw [h]; exact randStep_range s
    · exact ih _ r h

/-- C7: the sequence of unranged draws is a deterministic function of the
injected seed alone — the `n`-draw sequence after `srand(seed)` equals the
pointwise tabulation of a pure function of the seed and the draw index — so
two runs given the same fixed injected seed produce exactly the same
sequence of unranged draws. -/
theorem draw_sequence_deterministic (seed : Int) (n : Nat) :
    drawSeq n (srandM seed) = (List.range n).map (nthDraw (srandM seed)) ∧
    ∀ seed2 : Int, seed2 = seed → drawSeq n (srandM seed2) = drawSeq n (srandM seed) :=
  ⟨drawSeq_eq_map n (srandM seed), fun _ h => by rw [h]⟩

lemma loopA_trace (n : Nat) (st : CState) :
    ((loopA n st).2).trace = st.trace ++ List.replicate n Ev.drawEv := by
  induction n generalizing st with
  | zero => simp [loopA]
  | succ n ih =>
    show ((loopA n (randC st).2).2).trace = _
    rw [ih]
    simp [randC, List.replicate_succ]

lemma loopB_trace (low high : Int) (n : Nat) (st : CState) :
    ((loopB low high n st).2).trace = st.trace ++ List.replicate n Ev.drawEv := by
  induction n generalizing st with
  | zero => simp [loopB]
  | succ n ih =>
    show ((loopB low high n (rand_rangeC low high st).2).2).trace = _
    rw [ih]
    simp [rand_rangeC, randC, List.replicate_succ]

lemma randC_gen (st : CState) : ((randC st).2).gen = (randStep st.gen).2 := rfl

lemma loopA_val (n : Nat) (st : CState) :
    (loopA n st).1 = drawSeq n st.gen ∧ ((loopA n st).2).gen = genAfter st.gen n := by
  induction n generalizing st with
  | zero => exact ⟨rfl, rfl⟩
  | succ n ih =>
    constructor
    · show (randC st).1 :: (loopA n (randC st).2).1 = _
      rw [(ih (randC st).2).1]
      rfl
    · show ((loopA n (randC st).2).2).gen = genAfter st.gen (n + 1)
      rw [(ih (randC st).2).2, randC_gen, genAfter_succ]

lemma loopB_val (low high : Int) (n : Nat) (st : CState) :
    (loopB low high n st).1 = (drawSeq n st.gen).map (fun r => rand_range r low high) := by
  induction n generalizing st with
  | zero => rfl
  | succ n ih =>
    show (rand_rangeC low high st).1 :: (loopB low high n (rand_rangeC low high st).2).1 = _
    rw [ih]
    rfl

lemma mainTrace_eq (t : Int) :
    mainTrace t = Ev.seedEv :: List.replicate 20 Ev.drawEv := by
  show ((loopB 200 300 REPETITIONS.toNat
      (loopA REPETITIONS.toNat (srandC t ⟨0, []⟩)).2).2).trace = _
  rw [loopB_trace, loopA_trace]
  have h0 : (srandC t ⟨0, []⟩).trace = [Ev.seedEv] := rfl
  rw [h0]
  decide

/-- C8: in every run of the driver the generator is seeded exactly once, and
that single seeding precedes every draw: the event trace of `main` contains
exactly one seed event, and every draw event is preceded by it. -/
theorem main_seeds_once_before_draws (t : Int) :
    (mainTrace t).count Ev.seedEv = 1 ∧
    ∀ i : Fin (mainTrace t).length, (mainTrace t).get i = Ev.drawEv →
      ∃ j : Fin (mainTrace t).length, (j : Nat) < (i : Nat) ∧
        (mainTrace t).get j = Ev.seedEv := by
  rw [mainTrace_eq]
  decide

lemma seqOpt_map_some (l : List Int) : seqOpt (l.map some) = some l := by
  induction l with
  | nil => rfl
  | cons a l ih => simp [seqOpt, ih]

lemma rand_range_200_300 {r : Int} (h5 : 0 ≤ r) (h6 : r ≤ RAND_MAX) :
    rand_range r 200 300 = some (Int.tmod r 101 + 200) ∧
    200 ≤ Int.tmod r 101 + 200 ∧ Int.tmod r 101 + 200 ≤ 300 := by
  have hs : rangeSize 200 300 = 101 := by decide
  have h101 : Int.tmod r 101 = r % 101 := Int.tmod_eq_emod h5 (by omega)
  have hm1 : 0 ≤ r % 101 := Int.emod_nonneg r (by omega)
  have hm2 : r % 101 < 101 := Int.emod_lt_of_pos r (by omega)
  refine ⟨?_, by omega, by omega⟩
  unfold rand_range
  rw [hs, if_neg (by decide), h101, wrap32_id (by omega) (by omega)]

/-- Shape of a full run's output: a blank line and the first header, the
unranged value lines, a blank line and the second header, the second-block
value lines, the latter all within `[200, 300]`. -/
lemma mainLines_shape (t : Int) :
    ∃ vs ws : List Int,
      mainLines t = some ([Line.blank, Line.header REPETITIONS 0 RAND_MAX]
          ++ vs.map Line.value
          ++ [Line.blank, Line.header REPETITIONS 200 300]
          ++ ws.map Line.value)
      ∧ vs.length = 10 ∧ ws.length = 10 ∧ (∀ w ∈ ws, 200 ≤ w ∧ w ≤ 300) := by
  have hrange : ∀ r ∈ drawSeq REPETITIONS.toNat
      ((loopA REPETITIONS.toNat (srandC t ⟨0, []⟩)).2).gen, 0 ≤ r ∧ r ≤ RAND_MAX :=
    drawSeq_range _ _
  have hmap : (loopB 200 300 REPETITIONS.toNat
        (loopA REPETITIONS.toNat (srandC t ⟨0, []⟩)).2).1
      = ((drawSeq REPETITIONS.toNat
            ((loopA REPETITIONS.toNat (srandC t ⟨0, []⟩)).2).gen).map
          (fun r => Int.tmod r 101 + 200)).map some := by
    rw [loopB_val, List.map_map]
    exact List.map_congr_left fun r hr =>
      (rand_range_200_300 (hrange r hr).1 (hrange r hr).2).1
  refine ⟨(loopA REPETITIONS.toNat (srandC t ⟨0, []⟩)).1,
    (drawSeq REPETITIONS.toNat ((loopA REPETITIONS.toNat (srandC t ⟨0, []⟩)).2).gen).map
      (fun r => Int.tmod r 101 + 200), ?_, ?_, ?_, ?_⟩
  · show (seqOpt (mainPieces t).2.1).map _ = _
    have h1 : (mainPieces t).2.1
        = (loopB 200 300 REPETITIONS.toNat
            (loopA REPETITIONS.toNat (srandC t ⟨0, []⟩)).2).1 := rfl
    rw [h1, hmap, seqOpt_map_some]
    rfl
  · rw [(loopA_val _ _).1, drawSeq_length]
    rfl
  · rw [List.length_map, drawSeq_length]
    rfl
  · intro w hw
    simp only [List.mem_map] at hw
    obtain ⟨r, hr, rfl⟩ := hw
    exact ⟨(rand_range_200_300 (hrange r hr).1 (hrange r hr).2).2.1,
      (rand_range_200_300 (hrange r hr).1 (hrange r hr).2).2.2⟩

lemma count_blank_map_value (l : List Int) :
    (l.map Line.value).count Line.blank = 0 := by
  induction l with
  | nil => rfl
  | cons a l ih => simp [List.count_cons, ih]

lemma shape_length (vs ws : List Int) (hvs : vs.length = 10) (hws : ws.length = 10) :
    ([Line.blank, Line.header REPETITIONS 0 RAND_MAX] ++ vs.map Line.value
      ++ [Line.blank, Line.header REPETITIONS 200 300] ++ ws.map Line.value).length
      = 24 := by
  simp [hvs, hws]

lemma shape_count (vs ws : List Int) :
    ([Line.blank, Line.header REPETITIONS 0 RAND_MAX] ++ vs.map Line.value
      ++ [Line.blank, Line.header REPETITIONS 200 300] ++ ws.map Line.value).count
      Line.blank = 2 := by
  simp [List.count_append, count_blank_map_value, List.count_cons]

/-- C4 (amended): a full run prints exactly `2 * REPETITIONS + 4` lines —
each block is preceded by one blank separator line, emitted by the leading
`endl` of its header statement — of which exactly two are blank, leaving
`2 * REPETITIONS + 2` non-blank lines: one header plus `REPETITIONS` value
lines per block; and every value of the second block lies within the fixed
example interval `[200, 300]`. -/
theorem main_output_shape (t : Int) :
    ∃ ls, mainLines t = some ls ∧
      (ls.length : Int) = 2 * REPETITIONS + 4 ∧
      (ls.count Line.blank : Int) = 2 ∧
      (ls.length : Int) - (ls.count Line.blank : Int) = 2 * REPETITIONS + 2 ∧
      ∃ vs ws : List Int, vs.length = REPETITIONS.toNat ∧ ws.length = REPETITIONS.toNat ∧
        ls = [Line.blank, Line.header REPETITIONS 0 RAND_MAX] ++ vs.map Line.value
          ++ [Line.blank, Line.header REPETITIONS 200 300] ++ ws.map Line.value ∧
        ∀ w ∈ ws, 200 ≤ w ∧ w ≤ 300 := by
  obtain ⟨vs, ws, hml, hvs, hws, hb⟩ := mainLines_shape t
  refine ⟨_, hml, ?_, ?_, ?_, vs, ws, by rw [hvs]; rfl, by rw [hws]; rfl, rfl, hb⟩
  · rw [shape_length vs ws hvs hws]
    norm_num [REPETITIONS]
  · rw [shape_count vs ws]
    norm_num
  · rw [shape_length vs ws hvs hws, shape_count vs ws]
    norm_num [REPETITIONS]

/-- C4 counterexample: at `time(0) = 0` the run's output has 24 lines, not
`2 * REPETITIONS + 2 = 22`: the claim misses the two blank separator lines
printed by the leading `endl` of each header statement. -/
theorem main_output_lines_counterexample :
    ∃ ls, mainLines 0 = some ls ∧ (ls.length : Int) ≠ 2 * REPETITIONS + 2 := by
  obtain ⟨vs, ws, hml, hvs, hws, _⟩ := mainLines_shape 0
  refine ⟨_, hml, ?_⟩
  rw [shape_length vs ws hvs hws]
  norm_num [REPETITIONS]

end RandTutorial
